import Mathlib

/-!
Verification of the stream-extractor pipeline.

This file gives a shallow embedding of the extractor source
(the main extractor module, `hls-utils.js`) and proves the frozen
claims about it.  External libraries that the source treats as black
boxes (the DOM parser, the URL resolver, the m3u8 manifest parser,
the regex engine and the network itself) are modelled as oracle
parameters; the control flow of the source is translated faithfully,
including the placement of every try/catch handler.
-/

namespace Extractor

/-! ## JavaScript string primitives

Models of the JavaScript builtins the source uses:
`String.prototype.split` with a single-character separator,
`String.prototype.replace` with a plain-string pattern (first
occurrence only), and template interpolation of a possibly
undefined value (which renders as the string "undefined").
-/

/-- Model of `s.split(c)` on the character list: JS split with a
single-character separator.  `"".split(c)` is `[""]`, i.e. the
empty list of characters yields `[[]]`. -/
def splitChar (c : Char) : List Char → List (List Char)
  | [] => [[]]
  | x :: xs =>
    if x = c then [] :: splitChar c xs
    else
      match splitChar c xs with
      | [] => [[x]]
      | g :: gs => (x :: g) :: gs

/-- JS `id.split(':')` lifted to `String`. -/
def jsSplitColon (s : String) : List String :=
  (splitChar ':' s.toList).map (fun l => String.mk l)

/-- Model of `s.replace(pat, repl)` for a plain-string pattern:
replaces only the first occurrence, scanning left to right;
returns the string unchanged when the pattern does not occur. -/
def replaceFirstChars (pat repl : List Char) : List Char → List Char
  | [] => []
  | x :: xs =>
    if pat.isPrefixOf (x :: xs) then repl ++ (x :: xs).drop pat.length
    else x :: replaceFirstChars pat repl xs

/-- JS `s.replace(pat, repl)` lifted to `String`. -/
def jsReplaceFirst (s pat repl : String) : String :=
  String.mk (replaceFirstChars pat.toList repl.toList s.toList)

/-- JS template interpolation of a possibly undefined value:
`undefined` renders as the literal string "undefined". -/
def jsTmpl (o : Option String) : String :=
  o.getD "undefined"

/-- Model of `s.startsWith(pre)` on the character lists. -/
def jsStartsWith (s pre : String) : Bool :=
  pre.toList.isPrefixOf s.toList

/-- Model of `s.trim()`: strips whitespace from both ends. -/
def jsTrim (s : String) : String :=
  String.mk (((s.toList.dropWhile Char.isWhitespace).reverse.dropWhile
    Char.isWhitespace).reverse)

/-- Substring search on character lists. -/
def containsSub (pat : List Char) : List Char → Bool
  | [] => pat.isPrefixOf []
  | x :: xs => pat.isPrefixOf (x :: xs) || containsSub pat xs

/-- Model of `s.includes(sub)`. -/
def jsIncludes (s sub : String) : Bool :=
  containsSub sub.toList s.toList

/-! ## URL construction (`getObject`, `getUrl`) -/

/-- `SOURCE_URL` constant of the extractor module. -/
def SOURCE_URL : String := "https://vidsrc.xyz/embed"

/-- `getObject(id)`: splits the id on `:` and exposes the first
three components; out-of-range reads are `undefined` (`none`). -/
def getObject (id : String) : Option String × Option String × Option String :=
  let arr := jsSplitColon id
  (arr[0]?, arr[1]?, arr[2]?)

/-- `getUrl(id, type)`: movie ids map to `/movie/{id}`; every other
type falls through to the tv template built from `getObject`. -/
def getUrl (id ty : String) : String :=
  if ty = "movie" then SOURCE_URL ++ "/movie/" ++ id
  else
    let obj := getObject id
    SOURCE_URL ++ "/tv/" ++ jsTmpl obj.1 ++ "/" ++ jsTmpl obj.2.1 ++ "-" ++ jsTmpl obj.2.2

/-! ## The resilient fetcher (`fetchWithTimeout`)

Both copies of `fetchWithTimeout` (the main extractor one with
backoff base 200ms, and the `hls-utils.js` one with base 150ms)
have identical control flow; only the timeout, retry-count and
backoff constants differ, and none of those constants affects
which attempts are made.  The model abstracts a single attempt of
the underlying `fetch` into an oracle outcome indexed by the
attempt number (1-based): the response was ok, the response had a
non-ok HTTP status, or the fetch itself threw (network error,
timeout abort).
-/

/-- Outcome of one underlying `fetch` attempt. -/
inductive FetchAttempt where
  | success : FetchAttempt
  | status : Nat → FetchAttempt
  | netError : FetchAttempt
deriving DecidableEq

/-- Result of `fetchWithTimeout`: resolved or rejected, together
with the total number of `fetch` attempts that were made. -/
inductive FetchOutcome where
  | resolved : Nat → FetchOutcome
  | rejected : Nat → FetchOutcome
deriving DecidableEq

/-- The `while (attempt <= retries)` loop of `fetchWithTimeout`,
translated clause by clause.  `attempt` is the loop counter value
at the top of an iteration (before the `attempt++`).  A non-ok
response in the 4xx range raises `lastErr` inside the `try` block;
that throw is caught by the `catch` of the same iteration, which
retries unless `attempt > retries`.  A non-ok response outside the
4xx range sets `lastErr` and simply lets the loop continue. -/
def fetchLoop (oracle : Nat → FetchAttempt) (retries : Nat) (attempt : Nat) :
    FetchOutcome :=
  if h : attempt ≤ retries then
    let a := attempt + 1
    match oracle a with
    | .success => .resolved a
    | .status s =>
      if 400 ≤ s ∧ s < 500 then
        -- throw lastErr, caught by the catch clause of this iteration
        if a > retries then .rejected a else fetchLoop oracle retries a
      else
        -- no throw: fall out of the try block and re-test the loop guard
        fetchLoop oracle retries a
    | .netError =>
      if a > retries then .rejected a else fetchLoop oracle retries a
  else
    .rejected attempt
termination_by retries + 1 - attempt

/-- `fetchWithTimeout(url, options, timeoutMs, retries)`, starting
the loop with `attempt = 0`. -/
def fetchWithTimeout (oracle : Nat → FetchAttempt) (retries : Nat) : FetchOutcome :=
  fetchLoop oracle retries 0

/-! ## HLS manifest parsing (`hls-utils.js`)

The `m3u8-parser` library is a black box: its output object
(`parser.manifest`) is modelled as oracle data.  `manifest` may be
absent and `manifest.playlists` may fail the `Array.isArray` check,
hence the nested `Option`s.  `new URL(uri, base).toString()` is an
oracle that may throw.
-/

/-- A `RESOLUTION` attribute value as produced by the manifest
parser: a record with numeric width and height. -/
structure Resolution where
  width : Int
  height : Int
deriving DecidableEq

/-- The attributes object of one variant playlist.  `bandwidth` is
`none` when the `BANDWIDTH` attribute is missing or not a number
(in JS, `Number(...)` of it is `NaN`, and both `NaN || 0` and
`undefined` collapse to the same fallback paths). -/
structure PlaylistAttrs where
  bandwidth : Option Int
  resolution : Option Resolution
  codecs : Option String
  frameRate : Option Int
deriving DecidableEq

/-- One variant playlist of the parsed master manifest. -/
structure Playlist where
  attributes : Option PlaylistAttrs
  uri : Option String
deriving DecidableEq

/-- The `parser.manifest` object; `playlists` is `none` when the
field is missing or not an array. -/
structure ParsedManifest where
  playlists : Option (List Playlist)
deriving DecidableEq

/-- Oracles for the two outside capabilities `parseHLSMaster`
uses: the m3u8 parser (which may throw) and URL resolution
(`new URL(uri, base).toString()`, which may throw). -/
structure MasterOracle where
  parse : String → Except String (Option ParsedManifest)
  resolveUrl : Option String → String → Except String String

/-- The sort key of the comparator
`(a, b) => B - A` with `A = (a.attributes && Number(a.attributes.BANDWIDTH)) || 0`:
missing attributes, or a missing/non-numeric `BANDWIDTH`, count
as bandwidth 0. -/
def sortKey (p : Playlist) : Int :=
  match p.attributes with
  | none => 0
  | some a => a.bandwidth.getD 0

/-- The comparator order: `p` precedes `q` when the bandwidth key
of `q` is at most that of `p` (descending order). -/
def bwGE (p q : Playlist) : Prop := sortKey q ≤ sortKey p

instance : DecidableRel bwGE := fun p q => inferInstanceAs (Decidable (_ ≤ _))

instance : IsTotal Playlist bwGE := ⟨fun p q => le_total (sortKey q) (sortKey p)⟩

instance : IsTrans Playlist bwGE := ⟨fun _ _ _ h1 h2 => le_trans h2 h1⟩

/-- `manifest.playlists.slice().sort((a,b) => B - A)`: a stable
sort by descending bandwidth key (Array.prototype.sort is stable). -/
def sortPlaylists (l : List Playlist) : List Playlist :=
  l.insertionSort bwGE

/-- The quality-label computation of the variant loop: resolution
buckets by height, else bandwidth buckets. -/
def computeTitle (attrs : PlaylistAttrs) : String :=
  match attrs.resolution with
  | some r =>
    let res := toString r.width ++ "x" ++ toString r.height
    if r.height ≥ 1080 then res ++ " (1080p)"
    else if r.height ≥ 720 then res ++ " (720p)"
    else if r.height ≥ 480 then res ++ " (480p)"
    else res
  | none =>
    let bandwidth := attrs.bandwidth.getD 0
    if bandwidth > 5000000 then "High Quality"
    else if bandwidth > 2000000 then "Medium Quality"
    else "Low Quality"

/-- One entry of the `qualities` array. -/
structure QualityVariant where
  resolution : Option String
  bandwidth : Int
  codecs : Option String
  frameRate : Option Int
  url : String
  title : String
deriving DecidableEq

/-- The value `parseHLSMaster` returns on success. -/
structure HLSManifest where
  masterUrl : String
  qualities : List QualityVariant
deriving DecidableEq

/-- The body of the `for (const playlist of sorted)` loop: builds
one quality entry.  URL resolution may throw, which aborts the whole
parse (the only `try` is the one wrapping all of `parseHLSMaster`). -/
def buildVariant (o : MasterOracle) (baseUrl : String) (p : Playlist) :
    Except String QualityVariant := do
  let attrs := p.attributes.getD ⟨none, none, none, none⟩
  let url ← match p.uri with
    | some u => if jsStartsWith u "http" then pure u else o.resolveUrl (some u) baseUrl
    | none => o.resolveUrl none baseUrl
  let resolution := attrs.resolution.map
    (fun r => toString r.width ++ "x" ++ toString r.height)
  pure { resolution := resolution, bandwidth := attrs.bandwidth.getD 0,
         codecs := attrs.codecs, frameRate := attrs.frameRate,
         url := url, title := computeTitle attrs }

/-- The variant loop over the sorted playlists, pushing one quality
entry each; the first thrown error aborts the sequence. -/
def buildQualities (o : MasterOracle) (baseUrl : String) :
    List Playlist → Except String (List QualityVariant)
  | [] => pure []
  | p :: ps => do
    let v ← buildVariant o baseUrl p
    let rest ← buildQualities o baseUrl ps
    pure (v :: rest)

/-- The guard `manifest && Array.isArray(manifest.playlists) && manifest.playlists.length`:
a missing manifest or a missing/non-array playlists field yields no
variants (the loop body is skipped, which the model renders as the
empty playlist list). -/
def manifestPlaylists (mopt : Option ParsedManifest) : List Playlist :=
  match mopt with
  | some m => match m.playlists with
    | some l => l
    | none => []
  | none => []

/-- `parseHLSMaster(content, baseUrl)`: parse, sort by descending
bandwidth, build the quality entries; any exception anywhere in the
body is caught and yields `null`. -/
def parseHLSMaster (o : MasterOracle) (content baseUrl : String) :
    Option HLSManifest :=
  match (do
    let mopt ← o.parse content
    let qualities ← buildQualities o baseUrl (sortPlaylists (manifestPlaylists mopt))
    pure { masterUrl := baseUrl, qualities := qualities : HLSManifest } :
      Except String HLSManifest) with
  | .ok m => some m
  | .error _ => none

/-- Modelled from the amended claim wording for quality labels: a
present resolution yields the resolution string followed by a
parenthesized height bucket (`(1080p)`, `(720p)`, `(480p)`), or the
bare resolution string below 480; an absent resolution yields the
bandwidth buckets High (> 5000000) / Medium (> 2000000) / Low. -/
def labelSpec (attrs : PlaylistAttrs) : String :=
  match attrs.resolution with
  | some r =>
    let res := toString r.width ++ "x" ++ toString r.height
    if 1080 ≤ r.height then res ++ " (1080p)"
    else if 720 ≤ r.height then res ++ " (720p)"
    else if 480 ≤ r.height then res ++ " (480p)"
    else res
  | none =>
    if 5000000 < attrs.bandwidth.getD 0 then "High Quality"
    else if 2000000 < attrs.bandwidth.getD 0 then "Medium Quality"
    else "Low Quality"

/-- A concrete parser oracle: two variant playlists with bandwidths
1500000 and 6000000 and absolute URIs. -/
def sampleOracle : MasterOracle where
  parse := fun _ => .ok (some { playlists := some [
    ⟨some ⟨some 1500000, none, none, none⟩, some "http://x/low.m3u8"⟩,
    ⟨some ⟨some 6000000, none, none, none⟩, some "http://x/high.m3u8"⟩] })
  resolveUrl := fun _ b => .ok b

/-- The manifest `parseHLSMaster` produces from `sampleOracle`. -/
def sampleParsed : HLSManifest where
  masterUrl := "http://x/master.m3u8"
  qualities := [
    ⟨none, 6000000, none, none, "http://x/high.m3u8", "High Quality"⟩,
    ⟨none, 1500000, none, none, "http://x/low.m3u8", "Low Quality"⟩]

/-- A concrete parser oracle: a single variant playlist carrying a
`RESOLUTION` attribute of 1920x1080. -/
def fullHDOracle : MasterOracle where
  parse := fun _ => .ok (some { playlists := some [
    ⟨some ⟨none, some ⟨1920, 1080⟩, none, none⟩, some "http://x/v1.m3u8"⟩] })
  resolveUrl := fun _ b => .ok b

/-! ## Embed page loading (`serversLoad`)

cheerio is a black box: `cheerio.load` may throw, and the queries on
the loaded document are modelled as the document data itself.  Each
matched server element carries the outcome of reading its text and
its `data-hash` attribute, so that the per-element try/catch of the
source (which swallows one failing element) is represented.
-/

/-- One discovered server: trimmed element text plus `data-hash`. -/
structure ServerEntry where
  name : String
  dataHash : Option String
deriving DecidableEq

/-- The loaded document as the extractor queries it:
the title element text, the src attribute of the first iframe,
and the list of elements matching `.serversList .server`, each
giving the outcome of reading its text and its data-hash
attribute. -/
structure DOMData where
  titleText : String
  iframeSrcAttr : Option String
  serverElems : List (Except String (String × Option String))

/-- Oracles for `cheerio.load` (may throw) and `new URL(x).origin`
(may throw). -/
structure CheerioEnv where
  load : String → Except String DOMData
  urlOrigin : String → Except String String

/-- The triple `serversLoad` resolves with. -/
structure ServersLoadResult where
  servers : List ServerEntry
  title : String
  baseDomain : String
deriving DecidableEq

/-- The fallback base domain of the extractor. -/
def defaultBaseDomain : String := "https://cloudnestra.com"

/-- Conversion of one matched element: a throwing element is
skipped by its own catch; `attr(...) || null` maps both a missing
and an empty data-hash attribute to null. -/
def elemToServer (e : Except String (String × Option String)) :
    Option ServerEntry :=
  match e with
  | .error _ => none
  | .ok (txt, dh) =>
    some { name := jsTrim txt,
           dataHash := dh.bind (fun s => if s = "" then none else some s) }

/-- The base-domain inference: first iframe `src`, `https:` prefix
when protocol-relative, then the URL origin; any failure inside the
inner try keeps the fallback. -/
def inferBaseDomain (env : CheerioEnv) (dom : DOMData) : String :=
  let iframeSrc := dom.iframeSrcAttr.getD ""
  if iframeSrc ≠ "" then
    let full := if jsStartsWith iframeSrc "//" then "https:" ++ iframeSrc
      else iframeSrc
    match env.urlOrigin full with
    | .ok origin => origin
    | .error _ => defaultBaseDomain
  else defaultBaseDomain

/-- The body of `serversLoad` once the document is available. -/
def serversLoadFromDom (env : CheerioEnv) (dom : DOMData) : ServersLoadResult :=
  { servers := dom.serverElems.filterMap elemToServer,
    title := jsTrim dom.titleText,
    baseDomain := inferBaseDomain env dom }

/-- `serversLoad(html)`: the outer catch converts any load failure
into the empty default result. -/
def serversLoad (env : CheerioEnv) (html : String) : ServersLoadResult :=
  match env.load html with
  | .error _ => { servers := [], title := "", baseDomain := defaultBaseDomain }
  | .ok dom => serversLoadFromDom env dom

/-! ## The pipeline (`rcpGrabber`, `PRORCPhandler`, `fetchAndParseHLS`,
`mapWithConcurrencyLimit`, `getStreamContent`)

Network responses are oracle data keyed by URL: `fetchResult url`
is the outcome of `fetchWithTimeout` at that URL — either the last
error thrown after all attempts, or the response it returned.
`resp.text()` may itself reject.  The two inline-script regexes are
oracles returning their capture group.  Alongside its value,
`PRORCPhandler` returns the list of player-page URLs it fetched, so
that the theorems can speak about which fetches a pipeline stage
triggers.
-/

/-- A fetch response: the `ok` flag, the HTTP status, and the
outcome of reading the body. -/
structure Response where
  ok : Bool
  status : Nat
  text : Except String String

/-- `rcpGrabber` result metadata (the image field is always
the empty string in the source). -/
structure RcpMetadata where
  image : String
deriving DecidableEq

/-- An extracted rcp redirect target. -/
structure RcpResult where
  metadata : RcpMetadata
  data : String
deriving DecidableEq

/-- One aggregated output entry of `getStreamContent`. -/
structure StreamResult where
  name : String
  image : String
  mediaId : String
  stream : String
  referer : String
  hlsData : Option HLSManifest
deriving DecidableEq

/-- All oracles the pipeline consumes. -/
structure PipelineEnv where
  cheerio : CheerioEnv
  fetchResult : String → Except String Response
  srcMatch : String → Option String
  fileMatch : String → Option String
  hls : MasterOracle

/-- `rcpGrabber(html)`: the single-quoted `src:` pattern match;
no match (or an exception) yields null, a match yields the
capture with empty image metadata. -/
def rcpGrabber (srcMatch : String → Option String) (html : String) :
    Option RcpResult :=
  match srcMatch html with
  | none => none
  | some v => some { metadata := { image := "" }, data := v }

/-- `PRORCPhandler(baseDomain, prorcp)`: a falsy token returns null
before any fetch; otherwise the player page is fetched (the URL is
recorded in the second component) and the `file:` pattern searched;
every failure path yields null. -/
def PRORCPhandler (env : PipelineEnv) (baseDomain prorcp : String) :
    Option String × List String :=
  if prorcp = "" then (none, [])
  else
    let url := baseDomain ++ "/prorcp/" ++ prorcp
    match env.fetchResult url with
    | .error _ => (none, [url])
    | .ok resp =>
      if !resp.ok then (none, [url])
      else match resp.text with
        | .error _ => (none, [url])
        | .ok text =>
          match env.fileMatch text with
          | some m => if m = "" then (none, [url]) else (some m, [url])
          | none => (none, [url])

/-- `fetchAndParseHLS(url)`: fetch the manifest, reject bodies that
lack the `#EXT-X-STREAM-INF` marker, then `parseHLSMaster`; every
failure path yields null. -/
def fetchAndParseHLS (env : PipelineEnv) (url : String) : Option HLSManifest :=
  match env.fetchResult url with
  | .error _ => none
  | .ok resp =>
    if !resp.ok then none
    else match resp.text with
      | .error _ => none
      | .ok content =>
        if content = "" then none
        else if !(jsIncludes content "#EXT-X-STREAM-INF") then none
        else parseHLSMaster env.hls content url

/-- `mapWithConcurrencyLimit(items, fn, limit)` as the value it
resolves with: `results[i]` is the value of `fn(items[i], i)`, or
null where `fn` rejected.  With `limit = 0` no worker exists and
the empty results array is returned at once.  The worker-pool
implementation itself is modelled operationally below
(`poolStep`/`poolRun`), and the pool theorem proves that for every
`limit ≥ 1` and every completing schedule the pool fills exactly
this array. -/
def mapWithConcurrencyLimit {α β : Type} (items : List α)
    (fn : α → Nat → Except String β) (limit : Nat) : List (Option β) :=
  if limit = 0 then []
  else List.mapIdx (fun i a => (fn a i).toOption) items

/-- The per-server callback passed to `mapWithConcurrencyLimit` by
`getStreamContent`: skip servers without a hash, fetch the rcp page
and run `rcpGrabber`; the catch inside the callback converts any
thrown error into null. -/
def rcpServerFn (env : PipelineEnv) (baseDomain : String) (srv : ServerEntry) :
    Except String (Option RcpResult) :=
  match srv.dataHash with
  | none => pure none
  | some hash =>
    if hash = "" then pure none
    else
      match (do
        let resp ← env.fetchResult (baseDomain ++ "/rcp/" ++ hash)
        if !resp.ok then return (none : Option RcpResult)
        let txt ← resp.text
        return rcpGrabber env.srcMatch txt :
          Except String (Option RcpResult)) with
      | .ok v => pure v
      | .error _ => pure none

/-- The body of the `for (const item of rcpResponses)` loop of
`getStreamContent` for one item, together with the list of
player-page URLs the iteration fetched.  Null items are skipped;
a `data` value not starting with `/prorcp/` falls through the `if`
and contributes nothing; otherwise the prefix is stripped
(`replace` on the first occurrence), `PRORCPhandler` runs, a null
stream URL is skipped, and otherwise one `StreamResult` is pushed
with best-effort manifest data. -/
def processItem (env : PipelineEnv) (id title baseDomain : String)
    (item : Option RcpResult) : List StreamResult × List String :=
  match item with
  | none => ([], [])
  | some r =>
    if jsStartsWith r.data "/prorcp/" then
      match PRORCPhandler env baseDomain (jsReplaceFirst r.data "/prorcp/" "") with
      | (none, log) => ([], log)
      | (some streamUrl, log) =>
        ([{ name := title, image := r.metadata.image, mediaId := id,
            stream := streamUrl, referer := baseDomain,
            hlsData := fetchAndParseHLS env streamUrl }], log)
    else ([], [])

/-- The aggregation loop of `getStreamContent` over all rcp items. -/
def processItems (env : PipelineEnv) (id title baseDomain : String) :
    List (Option RcpResult) → List StreamResult × List String
  | [] => ([], [])
  | it :: rest =>
    let p := processItem env id title baseDomain it
    let ps := processItems env id title baseDomain rest
    (p.1 ++ ps.1, p.2 ++ ps.2)

/-- The guarded first stage of `getStreamContent`: fetch the embed
page and read its text; `none` models the early `return []` on a
non-ok response, and a thrown error is propagated to the
surrounding catch. -/
def embedStep (env : PipelineEnv) (url : String) :
    Except String (Option String) := do
  let resp ← env.fetchResult url
  if !resp.ok then return none
  let t ← resp.text
  return some t

/-- `getStreamContent(id, type)`: fetch the embed page (any failure
returns the empty list), load the servers (none: empty list), fetch
the rcp pages under the concurrency limit of 4, and aggregate the
per-item results. -/
def getStreamContent (env : PipelineEnv) (id ty : String) :
    Except String (List StreamResult) :=
  match embedStep env (getUrl id ty) with
  | .error _ => .ok []
  | .ok none => .ok []
  | .ok (some embedText) =>
    let r := serversLoad env.cheerio embedText
    if r.servers.isEmpty then .ok []
    else
      let rcpItems := (mapWithConcurrencyLimit r.servers
        (fun srv _ => rcpServerFn env r.baseDomain srv) 4).map Option.join
      .ok (processItems env id r.title r.baseDomain rcpItems).1

/-- A cheerio oracle whose `load` always throws. -/
def throwingCheerio : CheerioEnv where
  load := fun _ => .error "parse failure"
  urlOrigin := fun _ => .error "bad url"

/-- A cheerio oracle yielding one good server element on each side
of a throwing element. -/
def mixedCheerio : CheerioEnv where
  load := fun _ => .ok ⟨" T ", none,
    [.ok ("A", some "h1"), .error "bad element", .ok ("B", none)]⟩
  urlOrigin := fun _ => .error "bad url"

/-- A pipeline environment whose network always throws. -/
def offlineEnv : PipelineEnv where
  cheerio := throwingCheerio
  fetchResult := fun _ => .error "network down"
  srcMatch := fun _ => none
  fileMatch := fun _ => none
  hls := { parse := fun _ => .error "no parser",
           resolveUrl := fun _ _ => .error "no url" }

/-! ## The worker pool of `mapWithConcurrencyLimit`, operationally

`new Array(limit).fill(0).map(async () => { while (i < items.length)
{ const idx = i++; try { results[idx] = await fn(items[idx], idx); }
catch (e) { results[idx] = null; } } })`: `limit` workers share the
counter `i` and the `results` array.  On the single JS thread each
worker runs atomically between `await` points, so a run interleaves
two kinds of atomic worker actions: claiming the next index
(`const idx = i++`, or observing `i ≥ items.length` and finishing)
and writing the settled value of `fn(items[idx], idx)` at the
claimed index.  A schedule is the sequence of worker indices in the
order the event loop lets them act; the pool theorem quantifies
over every schedule, which is what "regardless of completion order"
means. -/

/-- What one worker of the pool is doing. -/
inductive WorkerState where
  | ready : WorkerState
  | computing : Nat → WorkerState
  | finished : WorkerState
deriving DecidableEq

/-- The shared state of one pool run: the claim counter `i`, the
sparse `results` array (`none` = never written), and the workers. -/
structure PoolState (β : Type) where
  next : Nat
  results : Nat → Option (Option β)
  workers : List WorkerState

/-- The value the worker claiming `idx` eventually writes there:
the resolved value of `fn(items[idx], idx)`, or null when it
rejected (the try/catch around the await). -/
def cellValue {α β : Type} (items : List α) (fn : α → Nat → Except String β)
    (idx : Nat) : Option β :=
  match items[idx]? with
  | some a => (fn a idx).toOption
  | none => none

/-- One atomic action of worker `w`: a ready worker re-tests the
loop guard and either claims the next index or finishes; a
computing worker writes its value and returns to the loop guard;
a finished worker (or an out-of-range index) does nothing. -/
def poolStep {α β : Type} (items : List α) (fn : α → Nat → Except String β)
    (st : PoolState β) (w : Nat) : PoolState β :=
  match st.workers[w]? with
  | some .ready =>
    if st.next < items.length then
      { next := st.next + 1,
        results := st.results,
        workers := st.workers.set w (.computing st.next) }
    else
      { st with workers := st.workers.set w .finished }
  | some (.computing idx) =>
    { st with
      results := fun j => if j = idx then some (cellValue items fn idx)
        else st.results j,
      workers := st.workers.set w .ready }
  | some .finished => st
  | none => st

/-- The initial pool state: counter 0, nothing written, `limit`
ready workers. -/
def poolInit (β : Type) (limit : Nat) : PoolState β :=
  { next := 0, results := fun _ => none,
    workers := List.replicate limit .ready }

/-- Run the pool under a schedule. -/
def poolRun {α β : Type} (items : List α) (fn : α → Nat → Except String β)
    (st : PoolState β) : List Nat → PoolState β
  | [] => st
  | w :: ws => poolRun items fn (poolStep items fn st w) ws

/-- `Promise.all(workers)` has settled: every worker finished. -/
def allFinished {β : Type} (st : PoolState β) : Bool :=
  st.workers.all (fun w => decide (w = .finished))

/-- The run invariant of the pool. -/
structure PoolInv {α β : Type} (items : List α)
    (fn : α → Nat → Except String β) (st : PoolState β) : Prop where
  next_le : st.next ≤ items.length
  results_claimed : ∀ idx v, st.results idx = some v →
    idx < st.next ∧ v = cellValue items fn idx
  claimed_covered : ∀ idx, idx < st.next →
    (∃ v, st.results idx = some v) ∨
      (∃ w : Nat, st.workers[w]? = some (WorkerState.computing idx))
  computing_lt : ∀ (w idx : Nat),
    st.workers[w]? = some (WorkerState.computing idx) → idx < st.next
  finished_next : (∃ w : Nat, st.workers[w]? = some WorkerState.finished) →
    items.length ≤ st.next

/-! ## Theorems -/

/-- On an endless run of 4xx responses the loop keeps retrying: from
any loop position `attempt ≤ retries` it rejects only after attempt
number `retries + 1`. -/
lemma fetchLoop_const_4xx (s : Nat) (hs : 400 ≤ s) (hs2 : s < 500)
    (retries attempt : Nat) (h : attempt ≤ retries) :
    fetchLoop (fun _ => .status s) retries attempt = .rejected (retries + 1) := by
  generalize hk : retries - attempt = k
  induction k generalizing attempt with
  | zero =>
    have heq : attempt = retries := by omega
    rw [fetchLoop]
    simp only [dif_pos h]
    have : 400 ≤ s ∧ s < 500 := ⟨hs, hs2⟩
    simp only [if_pos this]
    subst heq
    simp
  | succ k ih =>
    have hlt : attempt < retries := by omega
    rw [fetchLoop]
    simp only [dif_pos h]
    have : 400 ≤ s ∧ s < 500 := ⟨hs, hs2⟩
    simp only [if_pos this]
    have hng : ¬ attempt + 1 > retries := by omega
    simp only [if_neg hng]
    exact ih (attempt + 1) (by omega) (by omega)

/-- Claim C1 (refuting evaluation): a fetch that answers HTTP 404 on
every attempt is NOT terminal after one attempt.  With `retries = 2`
(the main extractor) the call makes 3 attempts before rejecting, and
with `retries = 1` (the manifest fetcher) it makes 2 — exactly the
same attempt counts as a constant 5xx response or a constant network
error.  The `throw lastErr` for a 4xx status sits inside the `try`
block, so the `catch` of the same loop iteration swallows it and
retries. -/
theorem fetchWithTimeout_retries_on_4xx :
    (∀ retries, fetchWithTimeout (fun _ => .status 404) retries =
      .rejected (retries + 1)) ∧
    fetchWithTimeout (fun _ => .status 404) 2 = .rejected 3 ∧
    fetchWithTimeout (fun _ => .status 404) 1 = .rejected 2 ∧
    fetchWithTimeout (fun _ => .status 500) 2 = .rejected 3 ∧
    fetchWithTimeout (fun _ => .netError) 2 = .rejected 3 := by
  refine ⟨fun retries => ?_, ?_, ?_, ?_, ?_⟩
  · exact fetchLoop_const_4xx 404 (by omega) (by omega) retries 0 (by omega)
  all_goals simp [fetchWithTimeout, fetchLoop]

/-- Splitting a list that does not contain the separator yields the
single group holding the whole list. -/
lemma splitChar_not_mem (c : Char) (l : List Char) (h : c ∉ l) :
    splitChar c l = [l] := by
  induction l with
  | nil => rfl
  | cons x xs ih =>
    have hx : ¬ x = c := by
      intro hc; exact h (by simp [hc])
    rw [splitChar, if_neg hx, ih (by intro hm; exact h (by simp [hm]))]

/-- Splitting peels off a separator-free prefix as its own group. -/
lemma splitChar_append (c : Char) (a rest : List Char) (h : c ∉ a) :
    splitChar c (a ++ c :: rest) = a :: splitChar c rest := by
  induction a with
  | nil => simp [splitChar]
  | cons x xs ih =>
    have hx : ¬ x = c := by
      intro hc; exact h (by simp [hc])
    rw [List.cons_append, splitChar, if_neg hx,
      ih (by intro hm; exact h (by simp [hm]))]

/-- A three-component colon-joined id splits into its components. -/
lemma jsSplitColon_three (a s e : String)
    (ha : ':' ∉ a.toList) (hs : ':' ∉ s.toList) (he : ':' ∉ e.toList) :
    jsSplitColon (a ++ ":" ++ s ++ ":" ++ e) = [a, s, e] := by
  have hlist : (a ++ ":" ++ s ++ ":" ++ e).toList =
      a.toList ++ ':' :: (s.toList ++ ':' :: e.toList) := by
    simp [String.toList, String.data_append]
  rw [jsSplitColon, hlist, splitChar_append _ _ _ ha,
    splitChar_append _ _ _ hs, splitChar_not_mem _ _ he]
  simp [String.toList]

/-- Claim C7: `getUrl` renders movie ids as `{SOURCE}/movie/{id}`,
and a series id of the form `titleId:season:episode` (components
free of colons) as `{SOURCE}/tv/titleId/season-episode`. -/
theorem getUrl_templates :
    (∀ id, getUrl id "movie" = SOURCE_URL ++ "/movie/" ++ id) ∧
    (∀ a s e, ':' ∉ a.toList → ':' ∉ s.toList → ':' ∉ e.toList →
      getUrl (a ++ ":" ++ s ++ ":" ++ e) "series" =
        SOURCE_URL ++ "/tv/" ++ a ++ "/" ++ s ++ "-" ++ e) := by
  constructor
  · intro id; simp [getUrl]
  · intro a s e ha hs he
    rw [getUrl, if_neg (by decide)]
    simp [getObject, jsSplitColon_three a s e ha hs he, jsTmpl]

/-- Witness for claim C7 at the concrete series id `tt123:1:2`. -/
theorem getUrl_templates_witness :
    ':' ∉ "tt123".toList ∧ ':' ∉ "1".toList ∧ ':' ∉ "2".toList ∧
    getUrl ("tt123" ++ ":" ++ "1" ++ ":" ++ "2") "series" =
      SOURCE_URL ++ "/tv/" ++ "tt123" ++ "/" ++ "1" ++ "-" ++ "2" :=
  ⟨by decide, by decide, by decide,
    getUrl_templates.2 "tt123" "1" "2" (by decide) (by decide) (by decide)⟩

/-- Claim C9: any type other than `"movie"` — `"series"`, but also
any unrecognized value — falls through to the tv template built by
splitting the id on `:`; missing season or episode components render
as the literal string `undefined`, and the function is total (no
validation, no error). -/
theorem getUrl_nonMovie (id ty : String) (hty : ty ≠ "movie") :
    getUrl id ty =
      SOURCE_URL ++ "/tv/" ++ jsTmpl (jsSplitColon id)[0]? ++ "/" ++
        jsTmpl (jsSplitColon id)[1]? ++ "-" ++ jsTmpl (jsSplitColon id)[2]? ∧
    getUrl "tt1" ty =
      SOURCE_URL ++ "/tv/" ++ "tt1" ++ "/" ++ "undefined" ++ "-" ++ "undefined" := by
  constructor
  · rw [getUrl, if_neg hty]
    simp [getObject]
  · rw [getUrl, if_neg hty]
    simp [getObject, jsSplitColon, splitChar, jsTmpl]

/-- Witness for claim C9 at the unrecognized type `"weird"` and an
id with no colon. -/
theorem getUrl_nonMovie_witness :
    "weird" ≠ "movie" ∧
    getUrl "tt1" "weird" =
      SOURCE_URL ++ "/tv/" ++ "tt1" ++ "/" ++ "undefined" ++ "-" ++ "undefined" :=
  ⟨by decide, (getUrl_nonMovie "tt1" "weird" (by decide)).2⟩

/-- The recorded bandwidth field of a variant coincides with the
sort key of its playlist. -/
lemma getD_bandwidth_eq_sortKey (p : Playlist) :
    (p.attributes.getD ⟨none, none, none, none⟩).bandwidth.getD 0 = sortKey p := by
  rcases p with ⟨attrs, uri⟩
  cases attrs <;> rfl

/-- A successful `buildVariant` records the sort key of the
playlist as its bandwidth and `computeTitle` of its attributes as
its title. -/
lemma buildVariant_ok (o : MasterOracle) (baseUrl : String) (p : Playlist)
    (v : QualityVariant) (h : buildVariant o baseUrl p = .ok v) :
    v.bandwidth = sortKey p ∧
    v.title = computeTitle (p.attributes.getD ⟨none, none, none, none⟩) := by
  rcases p with ⟨attrs, uri⟩
  rcases uri with _ | u
  all_goals rw [buildVariant] at h
  all_goals dsimp only at h
  · cases hu : o.resolveUrl none baseUrl with
    | error e => rw [hu] at h; exact absurd h (by simp [Bind.bind, Except.bind])
    | ok url =>
      rw [hu] at h
      simp only [Bind.bind, Except.bind, pure, Except.pure, Except.ok.injEq] at h
      subst h
      exact ⟨getD_bandwidth_eq_sortKey ⟨attrs, none⟩, rfl⟩
  · by_cases hsw : jsStartsWith u "http" = true
    · rw [if_pos hsw] at h
      simp only [Bind.bind, Except.bind, pure, Except.pure, Except.ok.injEq] at h
      subst h
      exact ⟨getD_bandwidth_eq_sortKey ⟨attrs, some u⟩, rfl⟩
    · rw [if_neg hsw] at h
      cases hu : o.resolveUrl (some u) baseUrl with
      | error e => rw [hu] at h; exact absurd h (by simp [Bind.bind, Except.bind])
      | ok url =>
        rw [hu] at h
        simp only [Bind.bind, Except.bind, pure, Except.pure, Except.ok.injEq] at h
        subst h
        exact ⟨getD_bandwidth_eq_sortKey ⟨attrs, some u⟩, rfl⟩

/-- The bandwidths of a successfully built quality list are exactly
the sort keys of the playlists, in order. -/
lemma buildQualities_bandwidths (o : MasterOracle) (baseUrl : String)
    (l : List Playlist) (qs : List QualityVariant)
    (h : buildQualities o baseUrl l = .ok qs) :
    qs.map (fun q => q.bandwidth) = l.map sortKey := by
  induction l generalizing qs with
  | nil =>
    simp only [buildQualities, pure, Except.pure, Except.ok.injEq] at h
    subst h; rfl
  | cons p ps ih =>
    rw [buildQualities] at h
    cases hv : buildVariant o baseUrl p with
    | error e => rw [hv] at h; exact absurd h (by simp [Bind.bind, Except.bind])
    | ok v =>
      rw [hv] at h
      cases hr : buildQualities o baseUrl ps with
      | error e =>
        rw [hr] at h
        exact absurd h (by simp [Bind.bind, Except.bind])
      | ok rest =>
        rw [hr] at h
        simp only [Bind.bind, Except.bind, pure, Except.pure, Except.ok.injEq] at h
        subst h
        simp only [List.map_cons, ih rest hr, (buildVariant_ok o baseUrl p v hv).1]

/-- The stable insertion sort by descending bandwidth key produces a
pairwise non-increasing list of keys. -/
lemma sortPlaylists_sorted (l : List Playlist) :
    (sortPlaylists l).Pairwise bwGE :=
  List.sorted_insertionSort bwGE l

/-- Claim C4: every non-null result of `parseHLSMaster` has its
qualities list sorted in descending order of bandwidth, where a
missing bandwidth counts as 0. -/
theorem parseHLSMaster_qualities_sorted (o : MasterOracle)
    (content baseUrl : String) (m : HLSManifest)
    (h : parseHLSMaster o content baseUrl = some m) :
    m.qualities.Pairwise (fun q1 q2 => q2.bandwidth ≤ q1.bandwidth) := by
  rw [parseHLSMaster] at h
  cases hp : o.parse content with
  | error e => rw [hp] at h; exact absurd h (by simp [Bind.bind, Except.bind])
  | ok mopt =>
    rw [hp] at h
    simp only [Bind.bind, Except.bind] at h
    cases hq : buildQualities o baseUrl (sortPlaylists (manifestPlaylists mopt)) with
    | error e =>
      rw [hq] at h
      exact absurd h (by simp [Bind.bind, Except.bind])
    | ok qs =>
      rw [hq] at h
      simp only [Bind.bind, Except.bind, pure, Except.pure, Option.some.injEq] at h
      have hbw := buildQualities_bandwidths o baseUrl _ qs hq
      have hsorted := sortPlaylists_sorted (manifestPlaylists mopt)
      have hmap : (qs.map (fun q => q.bandwidth)).Pairwise
          (fun x y : Int => y ≤ x) := by
        rw [hbw]
        exact List.pairwise_map.mpr hsorted
      have : qs.Pairwise (fun q1 q2 => q2.bandwidth ≤ q1.bandwidth) :=
        List.pairwise_map.mp hmap
      rw [← h]
      exact this

/-- Witness for claim C4 at the concrete two-variant oracle. -/
theorem parseHLSMaster_qualities_sorted_witness :
    parseHLSMaster sampleOracle "c" "http://x/master.m3u8" = some sampleParsed ∧
    sampleParsed.qualities.Pairwise (fun q1 q2 => q2.bandwidth ≤ q1.bandwidth) :=
  ⟨by decide,
    parseHLSMaster_qualities_sorted sampleOracle "c" "http://x/master.m3u8"
      sampleParsed (by decide)⟩

/-- Counterexample to claim C5 as stated: a variant playlist whose
`RESOLUTION` is 1920x1080 gets the label `"1920x1080 (1080p)"`, not
the bare bucket string `"1080p"`. -/
theorem quality_label_counterexample :
    (parseHLSMaster fullHDOracle "c" "http://x").map
      (fun m => m.qualities.map (fun q => q.title)) =
        some ["1920x1080 (1080p)"] ∧
    ("1920x1080 (1080p)" : String) ≠ "1080p" := by
  exact ⟨by decide, by decide⟩

/-- Claim C5 as amended: the label of every successfully built
variant is `labelSpec` of its attributes object — when a resolution
is present, the resolution string followed by the parenthesized
height bucket (or the bare resolution string below 480); otherwise
the High/Medium/Low bandwidth buckets with thresholds 5000000 and
2000000. -/
theorem quality_label_amended :
    (∀ attrs, computeTitle attrs = labelSpec attrs) ∧
    (∀ (o : MasterOracle) (baseUrl : String) (p : Playlist) (v : QualityVariant),
      buildVariant o baseUrl p = .ok v →
      v.title = labelSpec (p.attributes.getD ⟨none, none, none, none⟩)) := by
  have hct : ∀ attrs, computeTitle attrs = labelSpec attrs := by
    intro attrs
    rcases attrs with ⟨bw, res, cod, fr⟩
    cases res <;> rfl
  refine ⟨hct, fun o baseUrl p v h => ?_⟩
  rw [(buildVariant_ok o baseUrl p v h).2, hct]

/-- Claim C6: `serversLoad` is total; a load failure yields the
default result, and a single throwing server element only removes
itself — the result equals that of the document without it. -/
theorem serversLoad_defensive (env : CheerioEnv) (html : String) :
    (∀ e, env.load html = .error e →
      serversLoad env html = ⟨[], "", defaultBaseDomain⟩) ∧
    (∀ dom pre err post, env.load html = .ok dom →
      dom.serverElems = pre ++ .error err :: post →
      serversLoad env html =
        serversLoadFromDom env ⟨dom.titleText, dom.iframeSrcAttr, pre ++ post⟩) := by
  constructor
  · intro e he; rw [serversLoad, he]
  · intro dom pre err post hload helems
    rcases dom with ⟨tt, ifr, elems⟩
    rw [serversLoad, hload]
    dsimp only at helems
    subst helems
    simp [serversLoadFromDom, List.filterMap_append, elemToServer, inferBaseDomain]

/-- Witness for claim C6: a throwing load and a document with a
throwing element between two good ones. -/
theorem serversLoad_defensive_witness :
    serversLoad throwingCheerio "x" = ⟨[], "", defaultBaseDomain⟩ ∧
    serversLoad mixedCheerio "x" =
      serversLoadFromDom mixedCheerio ⟨" T ", none,
        [.ok ("A", some "h1"), .ok ("B", none)]⟩ :=
  ⟨(serversLoad_defensive throwingCheerio "x").1 "parse failure" rfl,
   (serversLoad_defensive mixedCheerio "x").2
     ⟨" T ", none, [.ok ("A", some "h1"), .error "bad element", .ok ("B", none)]⟩
     [.ok ("A", some "h1")] "bad element" [.ok ("B", none)] rfl rfl⟩

/-- Claim C2: `getStreamContent` always resolves with a list, for
every oracle environment — covering every combination of network
error, non-ok status, body-read failure, malformed page and
malformed manifest — and a thrown embed-page fetch resolves with
the empty list. -/
theorem getStreamContent_never_throws (env : PipelineEnv) (id ty : String) :
    (∃ l, getStreamContent env id ty = .ok l) ∧
    (∀ e, env.fetchResult (getUrl id ty) = .error e →
      getStreamContent env id ty = .ok []) := by
  constructor
  · rw [getStreamContent]
    cases h : embedStep env (getUrl id ty) with
    | error e => exact ⟨[], rfl⟩
    | ok o =>
      cases o with
      | none => exact ⟨[], rfl⟩
      | some t =>
        dsimp only
        by_cases hs : (serversLoad env.cheerio t).servers.isEmpty
        · exact ⟨[], by rw [if_pos hs]⟩
        · exact ⟨_, by rw [if_neg hs]⟩
  · intro e he
    have hstep : embedStep env (getUrl id ty) = .error e := by
      rw [embedStep, he]; rfl
    rw [getStreamContent, hstep]

/-- Witness for claim C2: the fully offline environment. -/
theorem getStreamContent_never_throws_witness :
    offlineEnv.fetchResult (getUrl "tt1" "movie") = .error "network down" ∧
    getStreamContent offlineEnv "tt1" "movie" = .ok [] :=
  ⟨rfl, (getStreamContent_never_throws offlineEnv "tt1" "movie").2 "network down" rfl⟩

/-- The aggregation loop distributes over list append. -/
lemma processItems_append (env : PipelineEnv) (id title base : String)
    (l1 l2 : List (Option RcpResult)) :
    processItems env id title base (l1 ++ l2) =
      ((processItems env id title base l1).1 ++ (processItems env id title base l2).1,
       (processItems env id title base l1).2 ++ (processItems env id title base l2).2) := by
  induction l1 with
  | nil => simp [processItems]
  | cons x xs ih => simp [processItems, ih]

/-- An item whose iteration pushes nothing and fetches nothing can
be removed from the loop without changing its outcome. -/
lemma processItems_skip (env : PipelineEnv) (id title base : String)
    (it : Option RcpResult) (h : processItem env id title base it = ([], []))
    (pre post : List (Option RcpResult)) :
    processItems env id title base (pre ++ it :: post) =
      processItems env id title base (pre ++ post) := by
  have hcons : processItems env id title base (it :: post) =
      processItems env id title base post := by
    rw [processItems]
    simp [h]
  rw [processItems_append, processItems_append, hcons]

/-- Claim C8: a non-null rcp item whose `data` does not start with
`/prorcp/` is skipped entirely by the aggregation loop of
`getStreamContent`: it contributes no output entry and triggers no
player-page fetch — removing it leaves both the result list and the
fetch log unchanged. -/
theorem nonProrcp_skipped (env : PipelineEnv) (id title base : String)
    (pre post : List (Option RcpResult)) (r : RcpResult)
    (h : jsStartsWith r.data "/prorcp/" = false) :
    processItems env id title base (pre ++ some r :: post) =
      processItems env id title base (pre ++ post) := by
  apply processItems_skip
  simp [processItem, h]

/-- Witness for claim C8 at a well-formed non-prorcp data value. -/
theorem nonProrcp_skipped_witness :
    jsStartsWith "https://elsewhere/player" "/prorcp/" = false ∧
    processItems offlineEnv "id" "t" "b"
        ([] ++ some ⟨⟨""⟩, "https://elsewhere/player"⟩ :: []) =
      processItems offlineEnv "id" "t" "b" ([] ++ []) :=
  ⟨by decide,
    nonProrcp_skipped offlineEnv "id" "t" "b" [] []
      ⟨⟨""⟩, "https://elsewhere/player"⟩ (by decide)⟩

/-- Claim C10: a falsy (empty) token makes `PRORCPhandler` return
null at once with no fetch performed (empty fetch log), and an rcp
item whose data is exactly `/prorcp/` (empty token once the prefix
is stripped) contributes neither output entries nor player-page
fetches to the aggregation loop. -/
theorem prorcp_empty_token (env : PipelineEnv) (base : String) :
    PRORCPhandler env base "" = (none, []) ∧
    (∀ id title pre post img,
      processItems env id title base (pre ++ some ⟨⟨img⟩, "/prorcp/"⟩ :: post) =
        processItems env id title base (pre ++ post)) := by
  refine ⟨rfl, fun id title pre post img => ?_⟩
  apply processItems_skip
  rw [processItem]
  dsimp only
  rw [if_pos (show jsStartsWith "/prorcp/" "/prorcp/" = true from rfl)]
  rw [show jsReplaceFirst "/prorcp/" "/prorcp/" "" = "" from rfl]
  rw [show PRORCPhandler env base "" = (none, []) from rfl]

/-- Unfolding `poolStep` for a worker index out of range. -/
lemma poolStep_oob {α β : Type} (items : List α) (fn : α → Nat → Except String β)
    (st : PoolState β) (w : Nat) (hw : st.workers[w]? = none) :
    poolStep items fn st w = st := by
  rw [poolStep, hw]

/-- Unfolding `poolStep` for a finished worker. -/
lemma poolStep_fin {α β : Type} (items : List α) (fn : α → Nat → Except String β)
    (st : PoolState β) (w : Nat)
    (hw : st.workers[w]? = some WorkerState.finished) :
    poolStep items fn st w = st := by
  rw [poolStep, hw]

/-- Unfolding `poolStep` for a ready worker that claims an index. -/
lemma poolStep_claim {α β : Type} (items : List α) (fn : α → Nat → Except String β)
    (st : PoolState β) (w : Nat)
    (hw : st.workers[w]? = some WorkerState.ready)
    (hn : st.next < items.length) :
    poolStep items fn st w =
      { next := st.next + 1, results := st.results,
        workers := st.workers.set w (WorkerState.computing st.next) } := by
  rw [poolStep, hw]
  dsimp only
  rw [if_pos hn]

/-- Unfolding `poolStep` for a ready worker past the end. -/
lemma poolStep_exit {α β : Type} (items : List α) (fn : α → Nat → Except String β)
    (st : PoolState β) (w : Nat)
    (hw : st.workers[w]? = some WorkerState.ready)
    (hn : ¬ st.next < items.length) :
    poolStep items fn st w =
      { st with workers := st.workers.set w WorkerState.finished } := by
  rw [poolStep, hw]
  dsimp only
  rw [if_neg hn]

/-- Unfolding `poolStep` for a computing worker writing its cell. -/
lemma poolStep_write {α β : Type} (items : List α) (fn : α → Nat → Except String β)
    (st : PoolState β) (w idx : Nat)
    (hw : st.workers[w]? = some (WorkerState.computing idx)) :
    poolStep items fn st w =
      { st with
        results := fun j => if j = idx then some (cellValue items fn idx)
          else st.results j,
        workers := st.workers.set w WorkerState.ready } := by
  rw [poolStep, hw]

/-- One pool step preserves the worker count. -/
lemma poolStep_workers_length {α β : Type} (items : List α)
    (fn : α → Nat → Except String β) (st : PoolState β) (w : Nat) :
    (poolStep items fn st w).workers.length = st.workers.length := by
  cases hw : st.workers[w]? with
  | none => rw [poolStep_oob items fn st w hw]
  | some ws =>
    cases ws with
    | ready =>
      by_cases hn : st.next < items.length
      · rw [poolStep_claim items fn st w hw hn]; exact List.length_set ..
      · rw [poolStep_exit items fn st w hw hn]; exact List.length_set ..
    | computing idx =>
      rw [poolStep_write items fn st w idx hw]; exact List.length_set ..
    | finished => rw [poolStep_fin items fn st w hw]

/-- A whole run preserves the worker count. -/
lemma poolRun_workers_length {α β : Type} (items : List α)
    (fn : α → Nat → Except String β) (sched : List Nat) (st : PoolState β) :
    (poolRun items fn st sched).workers.length = st.workers.length := by
  induction sched generalizing st with
  | nil => rfl
  | cons w ws ih =>
    rw [poolRun, ih]
    exact poolStep_workers_length items fn st w

/-- The invariant holds initially. -/
lemma poolInv_init {α β : Type} (items : List α)
    (fn : α → Nat → Except String β) (limit : Nat) :
    PoolInv items fn (poolInit β limit) := by
  refine ⟨Nat.zero_le _, ?_, ?_, ?_, ?_⟩
  · intro idx v h; exact absurd h (by simp [poolInit])
  · intro idx h; exact absurd h (Nat.not_lt_zero idx)
  · intro w idx h
    have hmem := List.getElem?_mem h
    exact absurd (List.eq_of_mem_replicate hmem) (by simp)
  · rintro ⟨w, hw⟩
    have hmem := List.getElem?_mem hw
    exact absurd (List.eq_of_mem_replicate hmem) (by simp)

/-- One pool step preserves the invariant. -/
lemma poolStep_inv {α β : Type} {items : List α}
    {fn : α → Nat → Except String β} {st : PoolState β}
    (inv : PoolInv items fn st) (w : Nat) :
    PoolInv items fn (poolStep items fn st w) := by
  cases hw : st.workers[w]? with
  | none => rw [poolStep_oob items fn st w hw]; exact inv
  | some ws =>
    cases ws with
    | finished => rw [poolStep_fin items fn st w hw]; exact inv
    | ready =>
      have hwlt : w < st.workers.length := (List.getElem?_eq_some.mp hw).1
      by_cases hn : st.next < items.length
      · rw [poolStep_claim items fn st w hw hn]
        refine ⟨by dsimp only; omega, ?_, ?_, ?_, ?_⟩
        · intro idx v h
          have h2 := inv.results_claimed idx v h
          refine ⟨?_, h2.2⟩
          show idx < st.next + 1
          omega
        · intro idx hlt
          dsimp only at hlt ⊢
          by_cases hidx : idx = st.next
          · subst hidx
            right
            exact ⟨w, List.getElem?_set_self hwlt⟩
          · rcases inv.claimed_covered idx (by omega) with hres | ⟨w2, hw2⟩
            · left; exact hres
            · right
              have hne : w ≠ w2 := by
                intro he; rw [he] at hw
                exact absurd (hw.symm.trans hw2) (by simp)
              exact ⟨w2, by rw [List.getElem?_set_ne hne]; exact hw2⟩
        · intro w2 idx h2
          dsimp only at h2 ⊢
          by_cases he : w = w2
          · subst he
            rw [List.getElem?_set_self hwlt] at h2
            have h3 := Option.some.inj h2
            have h4 := WorkerState.computing.inj h3
            omega
          · rw [List.getElem?_set_ne he] at h2
            have := inv.computing_lt w2 idx h2
            omega
        · rintro ⟨w2, hw2⟩
          dsimp only at hw2 ⊢
          by_cases he : w = w2
          · subst he
            rw [List.getElem?_set_self hwlt] at hw2
            exact absurd hw2 (by simp)
          · rw [List.getElem?_set_ne he] at hw2
            have := inv.finished_next ⟨w2, hw2⟩
            omega
      · rw [poolStep_exit items fn st w hw hn]
        refine ⟨inv.next_le, inv.results_claimed, ?_, ?_, ?_⟩
        · intro idx hlt
          rcases inv.claimed_covered idx hlt with hres | ⟨w2, hw2⟩
          · left; exact hres
          · right
            have hne : w ≠ w2 := by
              intro he; rw [he] at hw
              exact absurd (hw.symm.trans hw2) (by simp)
            exact ⟨w2, by rw [List.getElem?_set_ne hne]; exact hw2⟩
        · intro w2 idx h2
          dsimp only at h2
          by_cases he : w = w2
          · subst he
            rw [List.getElem?_set_self hwlt] at h2
            exact absurd h2 (by simp)
          · rw [List.getElem?_set_ne he] at h2
            exact inv.computing_lt w2 idx h2
        · intro _
          dsimp only
          omega
    | computing idx =>
      have hwlt : w < st.workers.length := (List.getElem?_eq_some.mp hw).1
      have hidxlt : idx < st.next := inv.computing_lt w idx hw
      rw [poolStep_write items fn st w idx hw]
      refine ⟨inv.next_le, ?_, ?_, ?_, ?_⟩
      · intro j v h
        dsimp only at h
        by_cases hj : j = idx
        · subst hj
          rw [if_pos rfl] at h
          exact ⟨hidxlt, (Option.some.inj h).symm⟩
        · rw [if_neg hj] at h
          exact inv.results_claimed j v h
      · intro j hlt
        dsimp only
        by_cases hj : j = idx
        · subst hj
          left
          exact ⟨cellValue items fn j, by rw [if_pos rfl]⟩
        · rcases inv.claimed_covered j hlt with ⟨v, hv⟩ | ⟨w2, hw2⟩
          · left
            exact ⟨v, by rw [if_neg hj]; exact hv⟩
          · right
            have hne : w ≠ w2 := by
              intro he; rw [he] at hw
              have h3 := Option.some.inj (hw.symm.trans hw2)
              exact hj (WorkerState.computing.inj h3).symm
            exact ⟨w2, by rw [List.getElem?_set_ne hne]; exact hw2⟩
      · intro w2 j h2
        dsimp only at h2
        by_cases he : w = w2
        · subst he
          rw [List.getElem?_set_self hwlt] at h2
          exact absurd h2 (by simp)
        · rw [List.getElem?_set_ne he] at h2
          exact inv.computing_lt w2 j h2
      · rintro ⟨w2, hw2⟩
        dsimp only at hw2 ⊢
        have hne : w ≠ w2 := by
          intro he
          subst he
          rw [List.getElem?_set_self hwlt] at hw2
          exact absurd hw2 (by simp)
        rw [List.getElem?_set_ne hne] at hw2
        exact inv.finished_next ⟨w2, hw2⟩

/-- A whole run preserves the invariant. -/
lemma poolRun_inv {α β : Type} {items : List α}
    {fn : α → Nat → Except String β} {st : PoolState β}
    (inv : PoolInv items fn st) (sched : List Nat) :
    PoolInv items fn (poolRun items fn st sched) := by
  induction sched generalizing st with
  | nil => exact inv
  | cons w ws ih => exact ih (poolStep_inv inv w)

/-- Claim C3: for every item list, every callback, every
`limit ≥ 1` and every schedule under which the worker pool
completes, the pool has filled exactly the array
`mapWithConcurrencyLimit items fn limit`: it has the same length
as `items`, and cell `i` holds the value of `fn(items[i], i)` — or
null exactly where `fn` rejected — independently of the schedule,
so the failure of one item never disturbs any other index. -/
theorem mapWithConcurrencyLimit_correct {α β : Type} (items : List α)
    (fn : α → Nat → Except String β) (limit : Nat) (sched : List Nat)
    (hlim : 1 ≤ limit)
    (hdone : allFinished (poolRun items fn (poolInit β limit) sched) = true) :
    (mapWithConcurrencyLimit items fn limit).length = items.length ∧
    (∀ i, (poolRun items fn (poolInit β limit) sched).results i =
      (mapWithConcurrencyLimit items fn limit)[i]?) ∧
    (∀ (i : Nat) (hi : i < items.length),
      (mapWithConcurrencyLimit items fn limit)[i]? =
        some ((fn items[i] i).toOption)) := by
  have hlim0 : limit ≠ 0 := by omega
  have inv := poolRun_inv (poolInv_init items fn limit) sched
  have hwlen : (poolRun items fn (poolInit β limit) sched).workers.length = limit := by
    rw [poolRun_workers_length]
    exact List.length_replicate ..
  have hfin : ∃ w : Nat,
      (poolRun items fn (poolInit β limit) sched).workers[w]? =
        some WorkerState.finished := by
    refine ⟨0, ?_⟩
    have h0 : 0 < (poolRun items fn (poolInit β limit) sched).workers.length := by
      omega
    rw [List.getElem?_eq_getElem h0]
    have hmem := List.getElem_mem h0
    have := List.all_eq_true.mp hdone _ hmem
    rw [of_decide_eq_true this]
  have hnext : items.length ≤ (poolRun items fn (poolInit β limit) sched).next :=
    inv.finished_next hfin
  have hnocomp : ∀ (w2 i : Nat),
      (poolRun items fn (poolInit β limit) sched).workers[w2]? ≠
        some (WorkerState.computing i) := by
    intro w2 i hc
    have hmem := List.getElem?_mem hc
    have := List.all_eq_true.mp hdone _ hmem
    exact absurd (of_decide_eq_true this) (by simp)
  have hres : ∀ i, i < items.length →
      (poolRun items fn (poolInit β limit) sched).results i =
        some (cellValue items fn i) := by
    intro i hi
    rcases inv.claimed_covered i (by omega) with ⟨v, hv⟩ | ⟨w2, hw2⟩
    · rw [hv, (inv.results_claimed i v hv).2]
    · exact absurd hw2 (hnocomp w2 i)
  have hresna : ∀ i, items.length ≤ i →
      (poolRun items fn (poolInit β limit) sched).results i = none := by
    intro i hi
    cases hv : (poolRun items fn (poolInit β limit) sched).results i with
    | none => rfl
    | some v =>
      have h2 := (inv.results_claimed i v hv).1
      have h3 := inv.next_le
      omega
  have hmap : mapWithConcurrencyLimit items fn limit =
      List.mapIdx (fun i a => (fn a i).toOption) items := by
    rw [mapWithConcurrencyLimit, if_neg hlim0]
  refine ⟨by rw [hmap]; simp, ?_, ?_⟩
  · intro i
    rw [hmap, List.getElem?_mapIdx]
    by_cases hi : i < items.length
    · rw [hres i hi, List.getElem?_eq_getElem hi]
      simp [cellValue, List.getElem?_eq_getElem hi]
    · rw [hresna i (by omega), List.getElem?_eq_none (by omega)]
      rfl
  · intro i hi
    rw [hmap, List.getElem?_mapIdx, List.getElem?_eq_getElem hi]
    rfl

/-- Witness for claim C3: two items, one worker, the round-robin
schedule; the callback of the second item rejects. -/
theorem mapWithConcurrencyLimit_correct_witness :
    (1 ≤ 1 ∧
      allFinished (poolRun ["a", "b"]
        (fun a i => if i = 0 then Except.ok a else Except.error "boom")
        (poolInit String 1) [0, 0, 0, 0, 0]) = true) ∧
    (mapWithConcurrencyLimit ["a", "b"]
        (fun a i => if i = 0 then Except.ok a else Except.error "boom") 1).length = 2 ∧
    (poolRun ["a", "b"]
        (fun a i => if i = 0 then Except.ok a else Except.error "boom")
        (poolInit String 1) [0, 0, 0, 0, 0]).results 1 =
      (mapWithConcurrencyLimit ["a", "b"]
        (fun a i => if i = 0 then Except.ok a else Except.error "boom") 1)[1]? :=
  have h := mapWithConcurrencyLimit_correct ["a", "b"]
    (fun a i => if i = 0 then Except.ok a else Except.error "boom") 1
    [0, 0, 0, 0, 0] (by decide) (by decide)
  ⟨⟨by decide, by decide⟩, h.1, h.2.1 1⟩

/-- Witness for claim C5 (amended) at the 1920x1080 playlist. -/
theorem quality_label_amended_witness :
    buildVariant fullHDOracle "http://x"
        ⟨some ⟨none, some ⟨1920, 1080⟩, none, none⟩, some "http://x/v1.m3u8"⟩ =
      .ok ⟨some "1920x1080", 0, none, none, "http://x/v1.m3u8", "1920x1080 (1080p)"⟩ ∧
    ("1920x1080 (1080p)" : String) =
      labelSpec ((some (⟨none, some ⟨1920, 1080⟩, none, none⟩ : PlaylistAttrs)).getD
        ⟨none, none, none, none⟩) :=
  ⟨by rfl,
    quality_label_amended.2 fullHDOracle "http://x"
      ⟨some ⟨none, some ⟨1920, 1080⟩, none, none⟩, some "http://x/v1.m3u8"⟩
      ⟨some "1920x1080", 0, none, none, "http://x/v1.m3u8", "1920x1080 (1080p)"⟩
      (by rfl)⟩

end Extractor
